import Mathlib

/-!
# Verification of the `filescanner` scan-section execution engine

This file gives a shallow embedding of `src/filescanner.py` (class
`FileScanner`) and proves properties about it.  Python strings are modelled
as Lean `String` (manipulated through their `List Char` data), the directory
walk (`os.walk`) as an explicit list of events, file reads as `Option String`
(`none` models a `PermissionError`/`OSError` raised when opening the file),
and the report/config side effects of `run` as an explicit effect trace.

Platform dependence of `fnmatch.fnmatch` (which normalises both arguments
with `os.path.normcase` before matching) is modelled by a `Char → Char`
normalisation parameter: `posixNormcase` is the identity, `windowsNormcase`
folds ASCII letters to lower case and replaces `'/'` by `'\'`.  Paths are
joined with `'/'` throughout (the POSIX `str(Path(root) / file)`).
-/

namespace FileScanner

/-! ## Python string primitives -/

/-- The ASCII whitespace characters stripped by Python's `str.strip()` /
`str.rstrip()` (the embedding restricts to ASCII text). -/
def isPySpace (c : Char) : Bool :=
  c = ' ' || c = '\t' || c = '\n' || c = '\x0d' || c = '\x0b' || c = '\x0c'

/-- Python `str.rstrip()` (no argument): drop trailing whitespace. -/
def pyRstrip (s : String) : String :=
  String.mk ((s.data.reverse.dropWhile isPySpace).reverse)

/-- Python `str.strip()` (no argument): drop leading and trailing whitespace. -/
def pyStrip (s : String) : String :=
  String.mk (((s.data.dropWhile isPySpace).reverse.dropWhile isPySpace).reverse)

/-- Decidable prefix test on character lists (Python `str.startswith`). -/
def listPre : List Char → List Char → Bool
  | [], _ => true
  | _ :: _, [] => false
  | a :: as, b :: bs => a = b && listPre as bs

/-- Decidable infix test on character lists (Python's `in` on strings). -/
def listInfix (l₁ : List Char) : List Char → Bool
  | [] => listPre l₁ []
  | b :: t => listPre l₁ (b :: t) || listInfix l₁ t

/-- Python `sub in s` (substring containment). -/
def containsSub (s sub : String) : Bool :=
  listInfix sub.data s.data

/-- Python `s.startswith(p)`. -/
def pyStartsWith (s p : String) : Bool :=
  listPre p.data s.data

/-- Python `s.endswith(p)`. -/
def pyEndsWith (s p : String) : Bool :=
  listPre p.data.reverse s.data.reverse

/-- Python `s[n:]`. -/
def pyDrop (s : String) (n : Nat) : String :=
  String.mk (s.data.drop n)

/-- Python `s[1:-1]` (used for `[Name]` section headers). -/
def stripBrackets (s : String) : String :=
  String.mk ((s.data.drop 1).dropLast)

/-- Split a character list at every occurrence of the separator, keeping
empty chunks — the semantics of Python `str.split(sep)` for a one-character
separator. -/
def splitChar (c : Char) : List Char → List (List Char)
  | [] => [[]]
  | x :: xs =>
    if x = c then [] :: splitChar c xs
    else
      match splitChar c xs with
      | [] => [[x]]
      | h :: t => (x :: h) :: t

/-- The lines produced by iterating over a Python text file (`for line in f`),
with their trailing `'\n'` removed: split on `'\n'` and drop the final empty
chunk contributed by a trailing newline (or by an empty file). -/
def splitLinesPy (s : String) : List String :=
  let l := (splitChar '\n' s.data).map String.mk
  if l.getLast? = some "" then l.dropLast else l

/-- Python `sep.join(items)`. -/
def joinSep (sep : String) : List String → String
  | [] => ""
  | [x] => x
  | x :: y :: xs => x ++ sep ++ joinSep sep (y :: xs)

/-- ASCII lower-casing of one character, as applied by `str.lower()` to
ASCII input. -/
def pyLower (c : Char) : Char :=
  if h : 65 ≤ c.toNat ∧ c.toNat ≤ 90 then
    Char.ofNatAux (c.toNat + 32) (Or.inl (by omega))
  else c

/-- Python `str.replace(old, new)` for a non-empty `old`, written with
explicit fuel so that it computes by structural recursion. -/
def pyReplaceAux (old new : List Char) : Nat → List Char → List Char
  | 0, s => s
  | _ + 1, [] => []
  | fuel + 1, x :: xs =>
    if listPre old (x :: xs) then
      new ++ pyReplaceAux old new fuel ((x :: xs).drop old.length)
    else
      x :: pyReplaceAux old new fuel xs

/-- Python `s.replace(old, new)` (only called with non-empty literal `old`
in the source). -/
def pyReplace (s old new : String) : String :=
  String.mk (pyReplaceAux old.data new.data (s.data.length + 1) s.data)

/-! ## `fnmatch` glob matching

`fnmatch.fnmatch(name, pat)` applies `os.path.normcase` to both arguments and
then matches `name` against the regex produced by `fnmatch.translate(pat)`:
`*` becomes `.*`, `?` becomes `.`, a bracket expression `[...]` becomes a
regex character class (`[!...]` negated, a `]` directly after the opening
bracket is literal, `a-b` is a code-point range, an unterminated `[` is a
literal `[`), and every other character is literal.  `matchPatF` implements
that matching directly on character lists, with explicit fuel so that it
computes by structural recursion; `pat.length + name.length + 1` fuel always
suffices because every recursive call shortens the pattern or the name. -/

/-- Scan a bracket expression for its closing `]`; returns the class body and
the remainder of the pattern, or `none` when the bracket is unterminated. -/
def findRBrack : List Char → Option (List Char × List Char)
  | [] => none
  | ']' :: rest => some ([], rest)
  | c :: rest =>
    match findRBrack rest with
    | none => none
    | some (body, r) => some (c :: body, r)

/-- Split the pattern after a `[` into (negated?, class body, rest), following
`fnmatch.translate`: a leading `!` negates, and a `]` immediately after the
(possibly negated) opening position belongs to the body. -/
def splitClass : List Char → Option (Bool × List Char × List Char)
  | '!' :: ']' :: rest =>
    match findRBrack rest with
    | none => none
    | some (body, r) => some (true, ']' :: body, r)
  | '!' :: rest =>
    match findRBrack rest with
    | none => none
    | some (body, r) => some (true, body, r)
  | ']' :: rest =>
    match findRBrack rest with
    | none => none
    | some (body, r) => some (false, ']' :: body, r)
  | rest =>
    match findRBrack rest with
    | none => none
    | some (body, r) => some (false, body, r)

/-- Parse a character-class body into ranges: `a-b` is a range, any other
character stands for itself (`c` is the range `c-c`). -/
def classItems : List Char → List (Char × Char)
  | [] => []
  | a :: '-' :: b :: rest => (a, b) :: classItems rest
  | a :: rest => (a, a) :: classItems rest

/-- Does character `n` match the (possibly negated) class body? -/
def classMatch (neg : Bool) (body : List Char) (n : Char) : Bool :=
  let hit := (classItems body).any fun p => p.1 ≤ n && n ≤ p.2
  if neg then !hit else hit

/-- Fueled core of `fnmatch.fnmatchcase`: does the glob pattern match the
whole name? -/
def matchPatF : Nat → List Char → List Char → Bool
  | 0, _, _ => false
  | _ + 1, [], [] => true
  | _ + 1, [], _ :: _ => false
  | fuel + 1, '*' :: ps, name =>
    matchPatF fuel ps name ||
      match name with
      | [] => false
      | _ :: ns => matchPatF fuel ('*' :: ps) ns
  | fuel + 1, '?' :: ps, name =>
    match name with
    | [] => false
    | _ :: ns => matchPatF fuel ps ns
  | fuel + 1, '[' :: ps, name =>
    match splitClass ps with
    | none =>
      match name with
      | [] => false
      | n :: ns => ('[' = n) && matchPatF fuel ps ns
    | some (neg, body, rest) =>
      match name with
      | [] => false
      | n :: ns => classMatch neg body n && matchPatF fuel rest ns
  | fuel + 1, p :: ps, name =>
    match name with
    | [] => false
    | n :: ns => (p = n) && matchPatF fuel ps ns

/-- `os.path.normcase` on POSIX: the identity. -/
def posixNormcase (c : Char) : Char := c

/-- `os.path.normcase` on Windows: replace `'/'` by `'\'`, then lower-case
(ASCII case folding modelled). -/
def windowsNormcase (c : Char) : Char :=
  if c = '/' then '\\' else pyLower c

/-- `fnmatch.fnmatch(name, pat)`: normalise both arguments with
`os.path.normcase` (the `nc` parameter) and match case-sensitively. -/
def fnmatch (nc : Char → Char) (name pat : String) : Bool :=
  let p := pat.data.map nc
  let n := name.data.map nc
  matchPatF (p.length + n.length + 1) p n

/-! ## Filesystem model

`os.walk(self.search_root)` enumerates regular files; the double loop
`for root, dirs, files in os.walk(...): for file in files:` is modelled as a
flat list of events in traversal order.  A `.file` event carries the
directory, the base name and the file's readable content (`none` models a
`PermissionError`/`OSError` raised when the file is opened).  An `.abort`
event models an exception raised by the traversal itself, which the source
catches around the whole loop (`except Exception`), keeping the results
collected so far.  `os.walk` reports errors via its `onerror` callback
rather than raising, so `.abort` only models the defensive `try/except` of
the source. -/

/-- One regular file seen by the walk. -/
structure FileEntry where
  dir : String
  fname : String
  content : Option String
deriving DecidableEq, Repr

/-- `str(Path(root) / file)` with the POSIX separator. -/
def pathOf (e : FileEntry) : String :=
  e.dir ++ "/" ++ e.fname

/-- One event of the modelled `os.walk` traversal. -/
inductive WalkEv where
  | file (e : FileEntry)
  | abort
deriving DecidableEq, Repr

/-- An error-free walk over the given files. -/
def pureWalk (fs : List FileEntry) : List WalkEv :=
  fs.map WalkEv.file

/-- All files physically present, regardless of traversal errors (used to
look up contents when a collected path is re-opened). -/
def allFiles : List WalkEv → List FileEntry
  | [] => []
  | WalkEv.file e :: rest => e :: allFiles rest
  | WalkEv.abort :: rest => allFiles rest

/-- `open(p, ...)` on a collected path: find the file with that path; the
outer `none` models `FileNotFoundError` (an `OSError`). -/
def readPath (store : List FileEntry) (p : String) : Option (Option String) :=
  (store.find? fun e => pathOf e = p).map FileEntry.content

/-! ## The search primitives (`grep_files`, `find_files`, `find_and_cat_files`) -/

/-- Case-insensitive `re.search(pattern, line, re.IGNORECASE)` for a pattern
that is a `'|'.join` of regex-literal (metacharacter-free) keywords: the line
matches iff it contains one of the alternatives as a substring, up to ASCII
case folding.  An empty alternative matches every line, as the empty regex
alternative does. -/
def reSearchCI (pattern line : String) : Bool :=
  (splitChar '|' pattern.data).any fun kw =>
    listInfix (kw.map pyLower) (line.data.map pyLower)

/-- Inner loop of `grep_files` over one file: `for line_num, line in
enumerate(f, 1): if re.search(...): results.append(f"{filepath}:{line_num}:{line.rstrip()}")`. -/
def grep_file_lines (pattern path : String) : Nat → List String → List String
  | _, [] => []
  | n, l :: ls =>
    if reSearchCI pattern l then
      (path ++ ":" ++ Nat.repr n ++ ":" ++ pyRstrip l) :: grep_file_lines pattern path (n + 1) ls
    else
      grep_file_lines pattern path (n + 1) ls

/-- `FileScanner.grep_files(pattern, extensions)`: walk the tree; when
`extensions` is non-empty, skip files whose name matches no extension
pattern; open each remaining file (skipping it on `PermissionError`/
`OSError`) and emit one `path:lineNumber:rstrippedLine` result per matching
line.  A traversal error aborts the walk, returning the results collected so
far. -/
def grep_files (nc : Char → Char) (walk : List WalkEv) (pattern : String)
    (extensions : List String) : List String :=
  match walk with
  | [] => []
  | WalkEv.abort :: _ => []
  | WalkEv.file e :: rest =>
    (if extensions ≠ [] ∧ ¬(extensions.any fun ext => fnmatch nc e.fname ext) then
      []
    else
      match e.content with
      | none => []
      | some c => grep_file_lines pattern (pathOf e) 1 (splitLinesPy c)) ++
      grep_files nc rest pattern extensions

/-- `FileScanner.find_files(patterns, name_patterns)`: walk the tree; a file
whose name matches some `patterns` entry is appended and the loop continues
with the next file; otherwise, a file whose name matches some
`name_patterns` entry is appended.  The falsy Python defaults
(`patterns=None`, `name_patterns=None`) are modelled by the empty list.  A
traversal error aborts the walk, returning the results collected so far. -/
def find_files (nc : Char → Char) (walk : List WalkEv)
    (patterns name_patterns : List String) : List String :=
  match walk with
  | [] => []
  | WalkEv.abort :: _ => []
  | WalkEv.file e :: rest =>
    if patterns ≠ [] ∧ (patterns.any fun pat => fnmatch nc e.fname pat) then
      pathOf e :: find_files nc rest patterns name_patterns
    else if name_patterns ≠ [] ∧ (name_patterns.any fun pat => fnmatch nc e.fname pat) then
      pathOf e :: find_files nc rest patterns name_patterns
    else
      find_files nc rest patterns name_patterns

/-- Second phase of `find_and_cat_files`: `for filepath in files_found:` open
the path (skipping it on `PermissionError`/`OSError`) and, when the content
is non-empty after stripping, append the `=== path ===` header and the raw
content. -/
def cat_found (store : List FileEntry) : List String → List String
  | [] => []
  | p :: ps =>
    (match readPath store p with
     | some (some c) => if pyStrip c ≠ "" then ["=== " ++ p ++ " ===", c] else []
     | _ => []) ++ cat_found store ps

/-- `FileScanner.find_and_cat_files(name_patterns)`. -/
def find_and_cat_files (nc : Char → Char) (walk : List WalkEv)
    (name_patterns : List String) : List String :=
  cat_found (allFiles walk) (find_files nc walk [] name_patterns)

/-! ## Section execution -/

/-- `FileScanner.parse_list(value)`: empty input gives `[]`, otherwise split
on commas and strip each element. -/
def parse_list (value : String) : List String :=
  if value = "" then []
  else (splitChar ',' value.data).map fun cs => pyStrip (String.mk cs)

/-- `FileScanner.build_actual_command`: substitute the `KEYWORDS`,
`EXTENSIONS` and `FILES` placeholders. -/
def build_actual_command (command : String)
    (keywords extensions files : List String) : String :=
  let ac := command
  let ac :=
    if keywords ≠ [] ∧ containsSub ac "KEYWORDS" then
      pyReplace ac "KEYWORDS" (joinSep "|" keywords)
    else ac
  let ac :=
    if extensions ≠ [] ∧ containsSub ac "EXTENSIONS" then
      if containsSub ac "grep" then
        pyReplace ac "EXTENSIONS"
          (joinSep " " (extensions.map fun ext => "--include=\"" ++ ext ++ "\""))
      else if containsSub ac "find" then
        pyReplace ac "EXTENSIONS"
          ("\\( " ++ joinSep " -o " (extensions.map fun ext => "-name \"" ++ ext ++ "\"") ++ " \\)")
      else ac
    else ac
  let ac :=
    if files ≠ [] ∧ containsSub ac "FILES" then
      pyReplace ac "FILES"
        ("\\( " ++ joinSep " -o " (files.map fun f => "-name \"" ++ f ++ "\"") ++ " \\)")
    else ac
  ac

/-- The results computed by `FileScanner.execute_section`, following the
source's `if 'grep' in command / elif 'find' in command and '-exec cat' in
command / elif 'find' in command` chain. -/
def execute_section_results (nc : Char → Char) (walk : List WalkEv)
    (command : String) (keywords extensions files : List String) : List String :=
  if containsSub command "grep" then
    if keywords ≠ [] then
      grep_files nc walk (joinSep "|" keywords) extensions
    else []
  else if containsSub command "find" ∧ containsSub command "-exec cat" then
    find_and_cat_files nc walk (if files ≠ [] then files else extensions)
  else if containsSub command "find" then
    if extensions ≠ [] then find_files nc walk extensions []
    else if files ≠ [] then find_files nc walk [] files
    else []
  else []

/-- The four search modes of the specification. -/
inductive SearchMode where
  | contentSearch
  | locateAndDump
  | locate
  | noSearch
deriving DecidableEq, Repr

/-- Modelled from the spec: classify a command template into exactly one
mode, testing the content-search marker (`grep`), then the locate marker
together with the dump marker (`find` and `-exec cat`), then the locate
marker alone (`find`), in that order. -/
def classify (command : String) : SearchMode :=
  if containsSub command "grep" then SearchMode.contentSearch
  else if containsSub command "find" ∧ containsSub command "-exec cat" then SearchMode.locateAndDump
  else if containsSub command "find" then SearchMode.locate
  else SearchMode.noSearch

/-! ## Configuration parsing and rewriting

`parse_config` builds Python dicts by assignment, so a key exists only once
it has been assigned; `PyDict` models this with one `Option` per key.  The
Python truthiness test `if current_section:` is `d ≠ emptyDict`. -/

/-- The `current_section` dict of `parse_config` / a parsed section record. -/
structure PyDict where
  name : Option String
  command : Option String
  keywords : Option (List String)
  extensions : Option (List String)
  files : Option (List String)
deriving DecidableEq, Repr

/-- The initial `current_section = {}`. -/
def emptyDict : PyDict :=
  ⟨none, none, none, none, none⟩

/-- The dict created on a `[Name]` header line. -/
def newSection (nm : String) : PyDict :=
  ⟨some nm, some "", some [], some [], some []⟩

/-- Is the (already rstripped) line a `[Name]` section header? -/
def isHeaderLine (line : String) : Bool :=
  pyStartsWith line "[" && pyEndsWith line "]"

/-- Is the (already rstripped) line a recognized key line that mutates the
current dict?  (`Example: ` lines are recognized but ignored on parse.) -/
def isKeyLine (line : String) : Bool :=
  pyStartsWith line "Command: " || pyStartsWith line "Keywords: " ||
    pyStartsWith line "Extensions: " || pyStartsWith line "Files: "

/-- The line loop of `FileScanner.parse_config`. -/
def parseLoop : List String → PyDict → List PyDict
  | [], cur => if cur ≠ emptyDict then [cur] else []
  | raw :: rest, cur =>
    let line := pyRstrip raw
    if line = "" ∨ pyStartsWith line "#" then
      parseLoop rest cur
    else if pyStartsWith line "[" ∧ pyEndsWith line "]" then
      (if cur ≠ emptyDict then [cur] else []) ++
        parseLoop rest (newSection (stripBrackets line))
    else if pyStartsWith line "Command: " then
      parseLoop rest { cur with command := some (pyStrip (pyDrop line 9)) }
    else if pyStartsWith line "Example: " then
      parseLoop rest cur
    else if pyStartsWith line "Keywords: " then
      parseLoop rest { cur with keywords := some (parse_list (pyDrop line 10)) }
    else if pyStartsWith line "Extensions: " then
      parseLoop rest { cur with extensions := some (parse_list (pyDrop line 12)) }
    else if pyStartsWith line "Files: " then
      parseLoop rest { cur with files := some (parse_list (pyDrop line 7)) }
    else
      parseLoop rest cur

/-- `FileScanner.parse_config` on the configuration text. -/
def parse_config (text : String) : List PyDict :=
  parseLoop (splitLinesPy text) emptyDict

/-- The line loop of `FileScanner.update_config_file`: track the current
section name; on an `Example: ` line whose current section has a stored
example, substitute it; pass every other (rstripped) line through.  The
`section_examples` dict is modelled as a lookup function. -/
def updateLines (ex : String → Option String) : List String → Option String → List String
  | [], _ => []
  | raw :: rest, cur =>
    let line := pyRstrip raw
    if pyStartsWith line "[" ∧ pyEndsWith line "]" then
      line :: updateLines ex rest (some (stripBrackets line))
    else if pyStartsWith line "Example: " then
      (match cur with
       | some nm =>
         match ex nm with
         | some e => "Example: " ++ e
         | none => line
       | none => line) :: updateLines ex rest cur
    else
      line :: updateLines ex rest cur

/-- `FileScanner.update_config_file`: rewrite the configuration text,
joining the processed lines with `'\n'` and appending a final newline. -/
def update_config_file (ex : String → Option String) (text : String) : String :=
  joinSep "\n" (updateLines ex (splitLinesPy text) none) ++ "\n"

/-! ## The `run` method as an effect trace

`run` writes the report header (truncating the output file), executes every
section with a non-empty command in file order (each `log` call appending a
line to the report), writes the footer, and only then rewrites the
configuration file.  Console output is not a file effect and is omitted.
An access to a missing dict key (possible for a headerless record produced
by a key line before the first header) raises `KeyError`, aborting the run;
the Boolean in the result records whether the run completed. -/

/-- A file effect of `run`: truncate-and-write the report, append a line to
the report, or overwrite the configuration file. -/
inductive Eff where
  | outTrunc (text : String)
  | out (line : String)
  | cfgWrite (text : String)
deriving DecidableEq, Repr

/-- Is the effect a write to the configuration file? -/
def isCfgWrite : Eff → Bool
  | Eff.cfgWrite _ => true
  | _ => false

/-- The configuration file content after a list of effects has been applied
to an initial content. -/
def applyCfg (orig : String) : List Eff → String
  | [] => orig
  | Eff.cfgWrite s :: rest => applyCfg s rest
  | _ :: rest => applyCfg orig rest

/-- `FileScanner.execute_section`: the stored example string and the lines
logged to the report, in order. -/
def execute_section_model (nc : Char → Char) (walk : List WalkEv) (verbose : Bool)
    (name command : String) (keywords extensions files : List String) :
    String × List String :=
  let actual := build_actual_command command keywords extensions files
  let exampleStr := pyReplace actual "\\\\" "\\"
  let results := execute_section_results nc walk command keywords extensions files
  let metaLogs :=
    if verbose then
      ["Command template: " ++ command] ++
        (if keywords ≠ [] then ["Keywords: " ++ joinSep ", " keywords] else []) ++
        (if extensions ≠ [] then ["Extensions: " ++ joinSep ", " extensions] else []) ++
        (if files ≠ [] then ["Files: " ++ joinSep ", " files] else [])
    else []
  let runningLogs := if verbose then ["\n> Running search..."] else []
  let resultLogs :=
    if results ≠ [] then results
    else if verbose then ["No matches found"] else []
  (exampleStr, ("\n=== " ++ name ++ " ===") :: metaLogs ++ runningLogs ++ resultLogs)

/-- The section loop of `run`: skip sections with a falsy command, abort on a
missing key (Python `KeyError`), otherwise execute and record the example.
Returns the report lines, the final `section_examples` lookup, and whether
the loop completed. -/
def runSectionsLoop (nc : Char → Char) (walk : List WalkEv) (verbose : Bool) :
    List PyDict → (String → Option String) → List String × (String → Option String) × Bool
  | [], ex => ([], ex, true)
  | d :: rest, ex =>
    match d.command with
    | none => ([], ex, false)
    | some cmd =>
      if cmd = "" then runSectionsLoop nc walk verbose rest ex
      else
        match d.name, d.keywords, d.extensions, d.files with
        | some nm, some kws, some exts, some fls =>
          let r := execute_section_model nc walk verbose nm cmd kws exts fls
          let ex2 : String → Option String := fun s => if s = nm then some r.1 else ex s
          let rec2 := runSectionsLoop nc walk verbose rest ex2
          (r.2 ++ rec2.1, rec2.2.1, rec2.2.2)
        | _, _, _, _ => ([], ex, false)

/-- The report header text written by `run` (paths and timestamps are
parameters of the model). -/
def headerText (rootStr cfgStr nowStr : String) : String :=
  "Starting search from: " ++ rootStr ++ "\n" ++ "Config: " ++ cfgStr ++ "\n" ++
    "Started: " ++ nowStr ++ "\n" ++ String.mk (List.replicate 40 '=') ++ "\n"

/-- `FileScanner.run` as an ordered trace of file effects, plus a completion
flag.  On completion the footer is logged and `update_config_file` rewrites
the configuration; on a `KeyError` the run aborts with no further effects. -/
def runTrace (nc : Char → Char) (walk : List WalkEv) (verbose : Bool)
    (cfgText rootStr cfgStr nowStr doneStr : String) : List Eff × Bool :=
  let sections := parse_config cfgText
  let r := runSectionsLoop nc walk verbose sections (fun _ => none)
  if r.2.2 then
    (Eff.outTrunc (headerText rootStr cfgStr nowStr) ::
       r.1.map Eff.out ++
       [Eff.out ("\n" ++ String.mk (List.replicate 40 '=')),
        Eff.out ("Completed: " ++ doneStr),
        Eff.cfgWrite (update_config_file r.2.1 cfgText)],
     true)
  else
    (Eff.outTrunc (headerText rootStr cfgStr nowStr) :: r.1.map Eff.out, false)

/-! ## Auxiliary combinators for specification statements -/

/-- Concatenation of the images of a list, used to state "one block of output
per element" properties. -/
def flatMapL (f : α → List β) : List α → List β
  | [] => []
  | a :: as => f a ++ flatMapL f as

/-! ## Helper lemmas -/

theorem pyLower_toNat {c : Char} (h : 65 ≤ c.toNat ∧ c.toNat ≤ 90) :
    (pyLower c).toNat = c.toNat + 32 := by
  unfold pyLower
  rw [dif_pos h]
  rfl

theorem pyLower_eq_self {c : Char} (h : ¬(65 ≤ c.toNat ∧ c.toNat ≤ 90)) :
    pyLower c = c := by
  unfold pyLower
  exact dif_neg h

theorem pyLower_pyLower (c : Char) : pyLower (pyLower c) = pyLower c := by
  by_cases h : 65 ≤ c.toNat ∧ c.toNat ≤ 90
  · have ht := pyLower_toNat h
    apply pyLower_eq_self
    rw [ht]
    omega
  · rw [pyLower_eq_self h, pyLower_eq_self h]

theorem pyLower_ne_slash {c : Char} (h : c ≠ '/') : pyLower c ≠ '/' := by
  by_cases hr : 65 ≤ c.toNat ∧ c.toNat ≤ 90
  · intro heq
    have ht := congrArg Char.toNat heq
    rw [pyLower_toNat hr] at ht
    have h47 : ('/' : Char).toNat = 47 := rfl
    rw [h47] at ht
    omega
  · rw [pyLower_eq_self hr]
    exact h

theorem windowsNormcase_pyLower (c : Char) :
    windowsNormcase (pyLower c) = windowsNormcase c := by
  unfold windowsNormcase
  by_cases hc : c = '/'
  · subst hc
    rfl
  · rw [if_neg (pyLower_ne_slash hc), if_neg hc, pyLower_pyLower]

theorem data_append (a b : String) : (a ++ b).data = a.data ++ b.data := rfl

theorem listPre_nil_left (l : List Char) : listPre [] l = true := by
  cases l <;> rfl

theorem listInfix_nil_left (l : List Char) : listInfix [] l = true := by
  cases l <;> simp [listInfix, listPre_nil_left]

theorem splitChar_ne_nil (c : Char) (l : List Char) : splitChar c l ≠ [] := by
  induction l with
  | nil => simp [splitChar]
  | cons x xs ih =>
    unfold splitChar
    by_cases hx : x = c
    · simp [hx]
    · rw [if_neg hx]
      match h : splitChar c xs with
      | [] => simp
      | hh :: tt => simp

theorem splitChar_append_cons (c : Char) (l₁ l₂ : List Char) :
    splitChar c (l₁ ++ c :: l₂) = splitChar c l₁ ++ splitChar c l₂ := by
  induction l₁ with
  | nil => simp [splitChar]
  | cons x xs ih =>
    by_cases hx : x = c
    · simp only [List.cons_append, splitChar, if_pos hx, List.append_eq, ih,
        List.cons_append, List.nil_append]
    · simp only [List.cons_append, splitChar, if_neg hx, List.append_eq, ih]
      match h : splitChar c xs with
      | [] => exact absurd h (splitChar_ne_nil c xs)
      | hh :: tt => simp

/-! ## C1 — case sensitivity of name matching -/

/-- C1 (counterexample): name matching is *not* case-insensitive for every
file name and pattern.  Under the POSIX `os.path.normcase` (the identity),
the pattern `*PASSWORD*` does not match the file name `my_Password.txt`:
`fnmatch` rejects it, locate mode emits nothing for such a file, and the
extension filter of content-search mode likewise rejects a file named
`NOTES.TXT` for the pattern `*.txt` even though it contains a keyword. -/
theorem C1_counterexample :
    fnmatch posixNormcase "my_Password.txt" "*PASSWORD*" = false ∧
    execute_section_results posixNormcase
      (pureWalk [⟨"r", "my_Password.txt", some ""⟩]) "find ." [] [] ["*PASSWORD*"] = [] ∧
    execute_section_results posixNormcase
      (pureWalk [⟨"r", "NOTES.TXT", some "password=1\n"⟩]) "grep -r KEYWORDS"
      ["password"] ["*.txt"] [] = [] := by
  refine ⟨by decide, by decide, by decide⟩

/-- C1 (amended): `fnmatch.fnmatch` folds both name and pattern through
`os.path.normcase`, so name matching is case-insensitive exactly when
`normcase` folds case — i.e. on Windows, where lower-casing the name never
changes the verdict and `*PASSWORD*` does match `my_Password.txt` both in
locate mode and in the content-search extension filter; on POSIX `normcase`
is the identity and the same match fails. -/
theorem C1_amended :
    (∀ name pat : String,
      fnmatch windowsNormcase (String.mk (name.data.map pyLower)) pat =
        fnmatch windowsNormcase name pat) ∧
    fnmatch windowsNormcase "my_Password.txt" "*PASSWORD*" = true ∧
    execute_section_results windowsNormcase
      (pureWalk [⟨"r", "my_Password.txt", some ""⟩]) "find ." [] [] ["*PASSWORD*"] =
      ["r/my_Password.txt"] ∧
    execute_section_results windowsNormcase
      (pureWalk [⟨"r", "NOTES.TXT", some "password=1\n"⟩]) "grep -r KEYWORDS"
      ["password"] ["*.txt"] [] = ["r/NOTES.TXT:1:password=1"] ∧
    fnmatch posixNormcase "my_Password.txt" "*PASSWORD*" = false := by
  refine ⟨?_, by decide, by decide, by decide, by decide⟩
  intro name pat
  have hdata : (String.mk (name.data.map pyLower)).data.map windowsNormcase =
      name.data.map windowsNormcase := by
    show (name.data.map pyLower).map windowsNormcase = name.data.map windowsNormcase
    rw [List.map_map]
    exact List.map_congr_left fun c _ => windowsNormcase_pyLower c
  simp only [fnmatch, hdata]

/-! ## C2 — locate mode with `files` patterns -/

/-- On an error-free walk with no extension patterns, `find_files` emits
exactly the files whose name matches some `name_patterns` entry, once each,
in traversal order. -/
theorem find_files_name_patterns (nc : Char → Char) (fs : List FileEntry)
    (nps : List String) :
    find_files nc (pureWalk fs) [] nps =
      (fs.filter fun e => nps.any fun pat => fnmatch nc e.fname pat).map pathOf := by
  induction fs with
  | nil => rfl
  | cons e rest ih =>
    rw [show pureWalk (e :: rest) = WalkEv.file e :: pureWalk rest from rfl]
    by_cases h : (nps.any fun pat => fnmatch nc e.fname pat) = true
    · have hne : nps ≠ [] := by
        intro he
        subst he
        simp at h
      simp [find_files, h, hne, List.filter_cons, ih]
    · simp [find_files, h, List.filter_cons, ih]

/-- C2 (counterexample): in locate mode with empty `extensions`, a file whose
name matches two of the `files` patterns is emitted once, not twice — the
source tests the patterns with `any(...)` and appends a single result. -/
theorem C2_counterexample :
    fnmatch posixNormcase "id_rsa" "id_*" = true ∧
    fnmatch posixNormcase "id_rsa" "*rsa" = true ∧
    execute_section_results posixNormcase (pureWalk [⟨"r", "id_rsa", some ""⟩])
      "find ." [] [] ["id_*", "*rsa"] = ["r/id_rsa"] ∧
    (["r/id_rsa"] : List String) ≠ ["r/id_rsa", "r/id_rsa"] := by
  refine ⟨by decide, by decide, by decide, by decide⟩

/-- C2 (amended): in locate mode with `extensions` empty, a file whose name
matches at least one of the `files` patterns is emitted exactly once — the
result list contains one entry per matching file, in traversal order, with
no duplication per matching pattern. -/
theorem C2_amended (nc : Char → Char) (fs : List FileEntry) (cmd : String)
    (kws fls : List String)
    (hg : containsSub cmd "grep" = false)
    (hf : containsSub cmd "find" = true)
    (hc : containsSub cmd "-exec cat" = false) :
    execute_section_results nc (pureWalk fs) cmd kws [] fls =
      (fs.filter fun e => fls.any fun pat => fnmatch nc e.fname pat).map pathOf := by
  by_cases hfl : fls = []
  · subst hfl
    simp [execute_section_results, hg, hf, hc]
  · simp [execute_section_results, hg, hf, hc, hfl, find_files_name_patterns]

/-- C2 (witness): a concrete locate run where `id_rsa` matches both `id_*`
and `*rsa` yet appears once. -/
theorem C2_witness :
    execute_section_results posixNormcase
      (pureWalk [⟨"r", "id_rsa", some ""⟩, ⟨"r", "note.md", some ""⟩])
      "find ." [] [] ["id_*", "*rsa"] = ["r/id_rsa"] := by
  have h := C2_amended posixNormcase
    [⟨"r", "id_rsa", some ""⟩, ⟨"r", "note.md", some ""⟩]
    "find ." [] ["id_*", "*rsa"] (by decide) (by decide) (by decide)
  rw [h]
  decide

/-! ## C3 — what the configuration rewrite changes -/

/-- Relation between an input line and the corresponding output line of the
configuration rewrite: either the output is the input with trailing
whitespace stripped, or the input is an `Example: ` line and the output is
`Example: ` followed by a stored resolved command. -/
def updateRel (ex : String → Option String) (raw outl : String) : Prop :=
  outl = pyRstrip raw ∨
    (pyStartsWith (pyRstrip raw) "Example: " = true ∧
      ∃ nm e, ex nm = some e ∧ outl = "Example: " ++ e)

theorem updateLines_forall₂ (ex : String → Option String) (lines : List String) :
    ∀ cur, List.Forall₂ (updateRel ex) lines (updateLines ex lines cur) := by
  induction lines with
  | nil => intro cur; exact List.Forall₂.nil
  | cons raw rest ih =>
    intro cur
    by_cases h1 : pyStartsWith (pyRstrip raw) "[" ∧ pyEndsWith (pyRstrip raw) "]"
    · simp only [updateLines, if_pos h1]
      exact List.Forall₂.cons (Or.inl rfl) (ih _)
    · by_cases h2 : pyStartsWith (pyRstrip raw) "Example: " = true
      · simp only [updateLines, if_neg h1, if_pos h2]
        cases cur with
        | none => exact List.Forall₂.cons (Or.inl rfl) (ih _)
        | some nm =>
          cases hx : ex nm with
          | none => simp only [hx]; exact List.Forall₂.cons (Or.inl rfl) (ih _)
          | some e =>
            simp only [hx]
            exact List.Forall₂.cons (Or.inr ⟨h2, nm, e, hx, rfl⟩) (ih _)
      · simp only [updateLines, if_neg h1, if_neg h2]
        exact List.Forall₂.cons (Or.inl rfl) (ih _)

/-- C3 (counterexample): the rewrite does not leave every non-`Example: `
line byte-for-byte unchanged.  With no resolved commands at all, the
configuration text `"x \n"` (one line `"x "`, not an `Example: ` line) is
rewritten to `"x\n"`: the line loses its trailing space. -/
theorem C3_counterexample :
    update_config_file (fun _ => none) "x \n" = "x\n" ∧ ("x\n" : String) ≠ "x \n" := by
  refine ⟨by decide, by decide⟩

/-- C3 (amended): the rewrite processes the file line by line, first
stripping trailing whitespace from every line (and terminating the file with
exactly one final newline); apart from that normalisation, only `Example: `
lines of sections with a computed resolved command change — every output
line is either its input line with trailing whitespace stripped, or
`Example: ` followed by a stored resolved command, and the line count is
preserved. -/
theorem C3_amended (ex : String → Option String) (text : String) :
    update_config_file ex text =
      joinSep "\n" (updateLines ex (splitLinesPy text) none) ++ "\n" ∧
    List.Forall₂ (updateRel ex) (splitLinesPy text)
      (updateLines ex (splitLinesPy text) none) :=
  ⟨rfl, updateLines_forall₂ ex (splitLinesPy text) none⟩

/-! ## C4 — mode selection precedence -/

/-- C4: `execute_section` runs exactly the search selected by the
spec's four-way classification (content-search marker first, then locate
marker with dump marker, then locate marker alone, else no search); in
particular a template containing both the content-search and the locate
marker is classified as content search. -/
theorem C4_mode_selection (nc : Char → Char) (walk : List WalkEv) (cmd : String)
    (kws exts fls : List String) :
    (execute_section_results nc walk cmd kws exts fls =
      match classify cmd with
      | SearchMode.contentSearch =>
        if kws ≠ [] then grep_files nc walk (joinSep "|" kws) exts else []
      | SearchMode.locateAndDump =>
        find_and_cat_files nc walk (if fls ≠ [] then fls else exts)
      | SearchMode.locate =>
        if exts ≠ [] then find_files nc walk exts []
        else if fls ≠ [] then find_files nc walk [] fls
        else []
      | SearchMode.noSearch => []) ∧
    (containsSub cmd "grep" = true → containsSub cmd "find" = true →
      classify cmd = SearchMode.contentSearch) := by
  constructor
  · by_cases h1 : containsSub cmd "grep" = true
    · simp [execute_section_results, classify, h1]
    · by_cases h2 : containsSub cmd "find" = true
      · by_cases h3 : containsSub cmd "-exec cat" = true
        · simp [execute_section_results, classify, h1, h2, h3]
        · simp [execute_section_results, classify, h1, h2, h3]
      · simp [execute_section_results, classify, h1, h2]
  · intro hg _
    simp [classify, hg]

/-- C4 (witness): a template containing both `grep` and `find` runs in
content-search mode, and a template with neither marker yields no results. -/
theorem C4_witness :
    classify "find . -exec grep KEYWORDS" = SearchMode.contentSearch ∧
    execute_section_results posixNormcase [] "echo nothing" [] [] [] = [] := by
  constructor
  · exact (C4_mode_selection posixNormcase [] "find . -exec grep KEYWORDS" [] [] []).2
      (by decide) (by decide)
  · have h := (C4_mode_selection posixNormcase [] "echo nothing" [] [] []).1
    rw [h]
    decide

/-! ## C5 — shape of content-search results -/

/-- The per-file grep loop is: enumerate the lines from `n`, keep exactly the
matching ones, format each as `path:lineNumber:rstrippedLine`. -/
theorem grep_file_lines_eq (pattern path : String) (ls : List String) :
    ∀ n, grep_file_lines pattern path n ls =
      (ls.enumFrom n).filterMap fun p =>
        if reSearchCI pattern p.2 then
          some (path ++ ":" ++ Nat.repr p.1 ++ ":" ++ pyRstrip p.2)
        else none := by
  induction ls with
  | nil => intro n; rfl
  | cons l rest ih =>
    intro n
    by_cases h : reSearchCI pattern l = true
    · simp [grep_file_lines, h, List.enumFrom, List.filterMap_cons, ih]
    · simp [grep_file_lines, h, List.enumFrom, List.filterMap_cons, ih]

/-- On an error-free walk, `grep_files` produces, for each candidate file
(every file when `extensions` is empty, else the files whose name matches
some extension pattern) one formatted result per matching line, in
traversal/line order; unreadable files contribute nothing. -/
theorem grep_files_pure (nc : Char → Char) (fs : List FileEntry)
    (pattern : String) (exts : List String) :
    grep_files nc (pureWalk fs) pattern exts =
      flatMapL (fun e =>
        match e.content with
        | none => []
        | some c =>
          ((splitLinesPy c).enumFrom 1).filterMap fun p =>
            if reSearchCI pattern p.2 then
              some (pathOf e ++ ":" ++ Nat.repr p.1 ++ ":" ++ pyRstrip p.2)
            else none)
        (fs.filter fun e => exts.isEmpty || exts.any fun ext => fnmatch nc e.fname ext) := by
  induction fs with
  | nil => rfl
  | cons e rest ih =>
    have hstep : grep_files nc (pureWalk (e :: rest)) pattern exts =
        (if exts ≠ [] ∧ ¬(exts.any fun ext => fnmatch nc e.fname ext) = true then []
         else
           match e.content with
           | none => []
           | some c => grep_file_lines pattern (pathOf e) 1 (splitLinesPy c)) ++
          grep_files nc (pureWalk rest) pattern exts := rfl
    cases hcand : (exts.isEmpty || exts.any fun ext => fnmatch nc e.fname ext) with
    | true =>
      have hskip : ¬(exts ≠ [] ∧ ¬(exts.any fun ext => fnmatch nc e.fname ext) = true) := by
        rcases Bool.or_eq_true_iff.mp hcand with hh | hh
        · intro hcon
          exact hcon.1 (List.isEmpty_iff.mp hh)
        · intro hcon
          exact hcon.2 hh
      rw [hstep, if_neg hskip, ih]
      simp only [List.filter_cons, hcand, if_true]
      cases hcon : e.content with
      | none => simp [flatMapL, hcon]
      | some c => simp [flatMapL, hcon, grep_file_lines_eq]
    | false =>
      have hne : exts ≠ [] := by
        intro he
        subst he
        simp at hcand
      have hnomatch : ¬(exts.any fun ext => fnmatch nc e.fname ext) = true := by
        intro hh
        simp [hh] at hcand
      have hskip : exts ≠ [] ∧ ¬(exts.any fun ext => fnmatch nc e.fname ext) = true :=
        ⟨hne, hnomatch⟩
      rw [hstep, if_pos hskip, ih]
      simp only [List.filter_cons, hcand]
      simp

/-- C5 (counterexample): the line text of a content-search result is the line
with *all* trailing whitespace stripped (`line.rstrip()`), not just the
trailing newline: the line `"export TOKEN=abc  \n"` is reported as
`"export TOKEN=abc"`, not `"export TOKEN=abc  "`. -/
theorem C5_counterexample :
    execute_section_results posixNormcase
      (pureWalk [⟨"r", "f.txt", some "export TOKEN=abc  \n"⟩])
      "grep -r KEYWORDS" ["token"] [] [] = ["r/f.txt:1:export TOKEN=abc"] ∧
    ("r/f.txt:1:export TOKEN=abc" : String) ≠ "r/f.txt:1:export TOKEN=abc  " := by
  refine ⟨by decide, by decide⟩

/-- C5 (amended): in content-search mode with non-empty `keywords`, every
candidate file (every file when `extensions` is empty, otherwise exactly the
files whose name matches some extension pattern) contributes exactly one
result `path:lineNumber:lineText` per line matching the case-insensitive
alternation of the keywords, with 1-based line numbers and trailing
whitespace (including the newline) stripped from the line text; with empty
`keywords` no search is performed and no results are emitted. -/
theorem C5_amended (nc : Char → Char) (fs : List FileEntry) (cmd : String)
    (kws exts fls : List String) (hg : containsSub cmd "grep" = true) :
    execute_section_results nc (pureWalk fs) cmd kws exts fls =
      if kws = [] then []
      else
        flatMapL (fun e =>
          match e.content with
          | none => []
          | some c =>
            ((splitLinesPy c).enumFrom 1).filterMap fun p =>
              if reSearchCI (joinSep "|" kws) p.2 then
                some (pathOf e ++ ":" ++ Nat.repr p.1 ++ ":" ++ pyRstrip p.2)
              else none)
          (fs.filter fun e => exts.isEmpty || exts.any fun ext => fnmatch nc e.fname ext) := by
  by_cases hk : kws = []
  · simp [execute_section_results, hg, hk]
  · simp [execute_section_results, hg, hk, grep_files_pure]

/-- C5 (witness): a concrete content search with a case difference and an
extension filter. -/
theorem C5_witness :
    execute_section_results posixNormcase
      (pureWalk [⟨"r", "env.txt", some "# header\nexport TOKEN=abc\n"⟩,
                 ⟨"r", "skip.md", some "secret\n"⟩])
      "grep -r KEYWORDS" ["secret", "token"] ["*.txt"] [] =
      ["r/env.txt:2:export TOKEN=abc"] := by
  have h := C5_amended posixNormcase
    [⟨"r", "env.txt", some "# header\nexport TOKEN=abc\n"⟩,
     ⟨"r", "skip.md", some "secret\n"⟩]
    "grep -r KEYWORDS" ["secret", "token"] ["*.txt"] [] (by decide)
  rw [h]
  decide

/-! ## C6 — number and order of parsed sections -/

theorem startsWith_hash_bracket {l : String} (h : pyStartsWith l "#" = true) :
    pyStartsWith l "[" = false := by
  rcases l with ⟨data⟩
  cases data with
  | nil => simp [pyStartsWith, listPre] at h
  | cons b bs =>
    simp [pyStartsWith, listPre] at h ⊢
    rw [← h]
    decide

theorem isHeaderLine_false_of_not {l : String}
    (h : ¬(pyStartsWith l "[" = true ∧ pyEndsWith l "]" = true)) :
    isHeaderLine l = false := by
  unfold isHeaderLine
  cases hs : pyStartsWith l "[" with
  | false => simp
  | true =>
    cases he : pyEndsWith l "]" with
    | false => simp
    | true => exact absurd ⟨hs, he⟩ h

theorem isHeaderLine_blank_or_hash {l : String}
    (h : l = "" ∨ pyStartsWith l "#" = true) : isHeaderLine l = false := by
  rcases h with h | h
  · rw [h]
    decide
  · unfold isHeaderLine
    rw [startsWith_hash_bracket h]
    rfl

theorem newSection_ne (nm : String) : newSection nm ≠ emptyDict := by
  intro h
  have := congrArg PyDict.command h
  simp [newSection, emptyDict] at this

theorem with_command_ne (d : PyDict) (v : String) :
    ({ d with command := some v } : PyDict) ≠ emptyDict := by
  intro h
  have := congrArg PyDict.command h
  simp [emptyDict] at this

theorem with_keywords_ne (d : PyDict) (v : List String) :
    ({ d with keywords := some v } : PyDict) ≠ emptyDict := by
  intro h
  have := congrArg PyDict.keywords h
  simp [emptyDict] at this

theorem with_extensions_ne (d : PyDict) (v : List String) :
    ({ d with extensions := some v } : PyDict) ≠ emptyDict := by
  intro h
  have := congrArg PyDict.extensions h
  simp [emptyDict] at this

theorem with_files_ne (d : PyDict) (v : List String) :
    ({ d with files := some v } : PyDict) ≠ emptyDict := by
  intro h
  have := congrArg PyDict.files h
  simp [emptyDict] at this

/-- Once a section has started (the current dict is truthy), the parse loop
emits the current dict followed by one record per remaining header line. -/
theorem parseLoop_started (lines : List String) : ∀ d : PyDict, d ≠ emptyDict →
    (parseLoop lines d).map PyDict.name =
      d.name :: ((lines.map pyRstrip).filter isHeaderLine).map fun l => some (stripBrackets l) := by
  induction lines with
  | nil =>
    intro d hd
    simp [parseLoop, hd]
  | cons raw rest ih =>
    intro d hd
    simp only [List.map_cons, List.filter_cons]
    by_cases hskip : pyRstrip raw = "" ∨ pyStartsWith (pyRstrip raw) "#" = true
    · have hh : isHeaderLine (pyRstrip raw) = false := isHeaderLine_blank_or_hash hskip
      rw [show parseLoop (raw :: rest) d = parseLoop rest d from by
            simp only [parseLoop, if_pos hskip]]
      rw [ih d hd, hh]
      simp
    · by_cases hhd : pyStartsWith (pyRstrip raw) "[" = true ∧ pyEndsWith (pyRstrip raw) "]" = true
      · have hh : isHeaderLine (pyRstrip raw) = true := by
          simp [isHeaderLine, hhd.1, hhd.2]
        rw [show parseLoop (raw :: rest) d =
              d :: parseLoop rest (newSection (stripBrackets (pyRstrip raw))) from by
              simp only [parseLoop, if_neg hskip, if_pos hhd, if_pos hd]
              rfl]
        rw [List.map_cons, ih (newSection (stripBrackets (pyRstrip raw))) (newSection_ne _), hh]
        simp [newSection]
      · have hh : isHeaderLine (pyRstrip raw) = false := isHeaderLine_false_of_not hhd
        rw [hh]
        simp only [Bool.false_eq_true, if_false]
        by_cases h1 : pyStartsWith (pyRstrip raw) "Command: " = true
        · rw [show parseLoop (raw :: rest) d =
                parseLoop rest { d with command := some (pyStrip (pyDrop (pyRstrip raw) 9)) } from by
                simp only [parseLoop, if_neg hskip, if_neg hhd, if_pos h1]]
          rw [ih _ (with_command_ne d _)]
        · by_cases h2 : pyStartsWith (pyRstrip raw) "Example: " = true
          · rw [show parseLoop (raw :: rest) d = parseLoop rest d from by
                  simp only [parseLoop, if_neg hskip, if_neg hhd, if_neg h1, if_pos h2]]
            rw [ih d hd]
          · by_cases h3 : pyStartsWith (pyRstrip raw) "Keywords: " = true
            · rw [show parseLoop (raw :: rest) d =
                    parseLoop rest { d with keywords := some (parse_list (pyDrop (pyRstrip raw) 10)) } from by
                    simp only [parseLoop, if_neg hskip, if_neg hhd, if_neg h1, if_neg h2, if_pos h3]]
              rw [ih _ (with_keywords_ne d _)]
            · by_cases h4 : pyStartsWith (pyRstrip raw) "Extensions: " = true
              · rw [show parseLoop (raw :: rest) d =
                      parseLoop rest { d with extensions := some (parse_list (pyDrop (pyRstrip raw) 12)) } from by
                      simp only [parseLoop, if_neg hskip, if_neg hhd, if_neg h1, if_neg h2,
                        if_neg h3, if_pos h4]]
                rw [ih _ (with_extensions_ne d _)]
              · by_cases h5 : pyStartsWith (pyRstrip raw) "Files: " = true
                · rw [show parseLoop (raw :: rest) d =
                        parseLoop rest { d with files := some (parse_list (pyDrop (pyRstrip raw) 7)) } from by
                        simp only [parseLoop, if_neg hskip, if_neg hhd, if_neg h1, if_neg h2,
                          if_neg h3, if_neg h4, if_pos h5]]
                  rw [ih _ (with_files_ne d _)]
                · rw [show parseLoop (raw :: rest) d = parseLoop rest d from by
                        simp only [parseLoop, if_neg hskip, if_neg hhd, if_neg h1, if_neg h2,
                          if_neg h3, if_neg h4, if_neg h5]]
                  rw [ih d hd]

/-- Before the first header, as long as no recognized key line occurs, the
parse loop from the empty dict emits one record per header line. -/
theorem parseLoop_empty (lines : List String)
    (h : (((lines.map pyRstrip).takeWhile fun l => !(isHeaderLine l)).all
            fun l => !(isKeyLine l)) = true) :
    (parseLoop lines emptyDict).map PyDict.name =
      ((lines.map pyRstrip).filter isHeaderLine).map fun l => some (stripBrackets l) := by
  induction lines with
  | nil => simp [parseLoop]
  | cons raw rest ih =>
    simp only [List.map_cons, List.filter_cons]
    by_cases hhd : pyStartsWith (pyRstrip raw) "[" = true ∧ pyEndsWith (pyRstrip raw) "]" = true
    · have hskip : ¬(pyRstrip raw = "" ∨ pyStartsWith (pyRstrip raw) "#" = true) := by
        intro hc
        have := isHeaderLine_blank_or_hash hc
        simp [isHeaderLine, hhd.1, hhd.2] at this
      have hh : isHeaderLine (pyRstrip raw) = true := by
        simp [isHeaderLine, hhd.1, hhd.2]
      rw [show parseLoop (raw :: rest) emptyDict =
            parseLoop rest (newSection (stripBrackets (pyRstrip raw))) from by
            simp only [parseLoop, if_neg hskip, if_pos hhd]
            rfl]
      rw [parseLoop_started rest (newSection (stripBrackets (pyRstrip raw))) (newSection_ne _), hh]
      simp [newSection]
    · have hh : isHeaderLine (pyRstrip raw) = false := isHeaderLine_false_of_not hhd
      have hrest : (((rest.map pyRstrip).takeWhile fun l => !(isHeaderLine l)).all
          fun l => !(isKeyLine l)) = true := by
        rw [List.map_cons, List.takeWhile_cons, hh] at h
        simp only [Bool.not_false, if_true, List.all_cons, Bool.and_eq_true] at h
        exact h.2
      have hnotkey : isKeyLine (pyRstrip raw) = false := by
        rw [List.map_cons, List.takeWhile_cons, hh] at h
        simp only [Bool.not_false, if_true, List.all_cons, Bool.and_eq_true] at h
        simpa using h.1
      rw [hh]
      simp only [Bool.false_eq_true, if_false]
      by_cases hskip : pyRstrip raw = "" ∨ pyStartsWith (pyRstrip raw) "#" = true
      · rw [show parseLoop (raw :: rest) emptyDict = parseLoop rest emptyDict from by
              simp only [parseLoop, if_pos hskip]]
        exact ih hrest
      · have h1 : pyStartsWith (pyRstrip raw) "Command: " = false := by
          cases hb : pyStartsWith (pyRstrip raw) "Command: " with
          | false => rfl
          | true => simp [isKeyLine, hb] at hnotkey
        have h3 : pyStartsWith (pyRstrip raw) "Keywords: " = false := by
          cases hb : pyStartsWith (pyRstrip raw) "Keywords: " with
          | false => rfl
          | true => simp [isKeyLine, hb] at hnotkey
        have h4 : pyStartsWith (pyRstrip raw) "Extensions: " = false := by
          cases hb : pyStartsWith (pyRstrip raw) "Extensions: " with
          | false => rfl
          | true => simp [isKeyLine, hb] at hnotkey
        have h5 : pyStartsWith (pyRstrip raw) "Files: " = false := by
          cases hb : pyStartsWith (pyRstrip raw) "Files: " with
          | false => rfl
          | true => simp [isKeyLine, hb] at hnotkey
        by_cases h2 : pyStartsWith (pyRstrip raw) "Example: " = true
        · rw [show parseLoop (raw :: rest) emptyDict = parseLoop rest emptyDict from by
                simp only [parseLoop, if_neg hskip, if_neg hhd, h1, if_pos h2]
                simp]
          exact ih hrest
        · rw [show parseLoop (raw :: rest) emptyDict = parseLoop rest emptyDict from by
                simp only [parseLoop, if_neg hskip, if_neg hhd, h1, if_neg h2, h3, h4, h5]
                simp]
          exact ih hrest

/-- C6 (counterexample): a configuration with zero well-formed section
headers but a recognized key line (`Command: x`) parses to one record, not
zero — the key line populates the initially empty dict, which is then truthy
and is appended at end of input. -/
theorem C6_counterexample :
    (parse_config "Command: x\n").length = 1 ∧
    (((splitLinesPy "Command: x\n").map pyRstrip).filter isHeaderLine).length = 0 := by
  refine ⟨by decide, by decide⟩

/-- C6 (amended): provided no recognized key line (`Command: `,
`Keywords: `, `Extensions: `, `Files: `) precedes the first section header,
parsing yields exactly one record per well-formed header line, in file
order; blank lines, comment lines and unrecognized lines never change the
count, and a trailing section not followed by another header is still
emitted at end of input.  (A recognized key line before the first header
creates one extra headerless record.) -/
theorem C6_amended (text : String)
    (h : ((((splitLinesPy text).map pyRstrip).takeWhile fun l => !(isHeaderLine l)).all
            fun l => !(isKeyLine l)) = true) :
    (parse_config text).map PyDict.name =
      (((splitLinesPy text).map pyRstrip).filter isHeaderLine).map
        fun l => some (stripBrackets l) :=
  parseLoop_empty (splitLinesPy text) h

/-- C6 (witness): a configuration with two headers, comments, blank lines
and an unrecognized line parses to exactly the two records, in order. -/
theorem C6_witness :
    (parse_config "# note\n\n[Alpha]\nCommand: grep KEYWORDS\nKeywords: a, b\nstray line\n\n[Beta]\nFiles: f\n").map PyDict.name =
      [some "Alpha", some "Beta"] := by
  have h := C6_amended
    "# note\n\n[Alpha]\nCommand: grep KEYWORDS\nKeywords: a, b\nstray line\n\n[Beta]\nFiles: f\n"
    (by decide)
  rw [h]
  decide

/-! ## C7 — locate-and-dump mode -/

theorem allFiles_pure (fs : List FileEntry) : allFiles (pureWalk fs) = fs := by
  induction fs with
  | nil => rfl
  | cons e rest ih =>
    simp only [pureWalk, List.map_cons, allFiles]
    rw [show List.map WalkEv.file rest = pureWalk rest from rfl, ih]

theorem readPath_self {fs : List FileEntry} {e : FileEntry} (he : e ∈ fs)
    (hnd : (fs.map pathOf).Nodup) : readPath fs (pathOf e) = some e.content := by
  induction fs with
  | nil => cases he
  | cons a rest ih =>
    rcases List.mem_cons.mp he with rfl | hmem
    · simp [readPath, List.find?_cons_of_pos]
    · have hne : pathOf a ≠ pathOf e := by
        intro hp
        have : pathOf e ∈ rest.map pathOf := List.mem_map_of_mem pathOf hmem
        rw [← hp] at this
        exact (List.nodup_cons.mp (by simpa using hnd)).1 this
      have hrest : (rest.map pathOf).Nodup := (List.nodup_cons.mp (by simpa using hnd)).2
      rw [readPath, List.find?_cons_of_neg]
      · exact ih hmem hrest
      · simp [hne]

/-- Dumping a list of found paths is one block per corresponding entry. -/
theorem cat_found_map {fs : List FileEntry} (hnd : (fs.map pathOf).Nodup) :
    ∀ l : List FileEntry, (∀ e ∈ l, e ∈ fs) →
      cat_found fs (l.map pathOf) =
        flatMapL (fun e =>
          match e.content with
          | none => []
          | some c => if pyStrip c ≠ "" then ["=== " ++ pathOf e ++ " ===", c] else []) l := by
  intro l
  induction l with
  | nil => intro _; rfl
  | cons e rest ih =>
    intro hsub
    have he : e ∈ fs := hsub e (List.mem_cons_self e rest)
    have hr := readPath_self he hnd
    simp only [List.map_cons, cat_found, flatMapL, hr,
      ih fun x hx => hsub x (List.mem_cons_of_mem e hx)]
    cases e.content <;> rfl

/-- C7: in locate-and-dump mode the name patterns are `files` when
non-empty, else `extensions`; each matched file with non-empty trimmed
content contributes the header `=== path ===` followed by its raw content,
and files whose trimmed content is empty (or that cannot be read) are
omitted entirely. -/
theorem C7_dump_mode (nc : Char → Char) (fs : List FileEntry) (cmd : String)
    (kws exts fls : List String)
    (hg : containsSub cmd "grep" = false)
    (hf : containsSub cmd "find" = true)
    (hc : containsSub cmd "-exec cat" = true)
    (hnd : (fs.map pathOf).Nodup) :
    execute_section_results nc (pureWalk fs) cmd kws exts fls =
      flatMapL (fun e =>
        match e.content with
        | none => []
        | some c => if pyStrip c ≠ "" then ["=== " ++ pathOf e ++ " ===", c] else [])
        (fs.filter fun e =>
          (if fls ≠ [] then fls else exts).any fun pat => fnmatch nc e.fname pat) := by
    have hstep : execute_section_results nc (pureWalk fs) cmd kws exts fls =
        find_and_cat_files nc (pureWalk fs) (if fls ≠ [] then fls else exts) := by
      simp [execute_section_results, hg, hf, hc]
    rw [hstep, find_and_cat_files, allFiles_pure, find_files_name_patterns]
    exact cat_found_map hnd _ fun e he => List.mem_of_mem_filter he

/-- C7 (witness): a concrete dump where the fallback to `extensions` is not
needed, a blank file is omitted and an unreadable file is skipped. -/
theorem C7_witness :
    execute_section_results posixNormcase
      (pureWalk [⟨"r", "id_rsa", some "KEY\n"⟩, ⟨"r", "empty.key", some "  \n"⟩,
                 ⟨"r", "locked.key", none⟩, ⟨"r", "other.txt", some "x\n"⟩])
      "find . -name X -exec cat" [] ["*.txt"] ["id_*", "*.key"] =
      ["=== r/id_rsa ===", "KEY\n"] := by
  have h := C7_dump_mode posixNormcase
    [⟨"r", "id_rsa", some "KEY\n"⟩, ⟨"r", "empty.key", some "  \n"⟩,
     ⟨"r", "locked.key", none⟩, ⟨"r", "other.txt", some "x\n"⟩]
    "find . -name X -exec cat" [] ["*.txt"] ["id_*", "*.key"]
    (by decide) (by decide) (by decide) (by decide)
  rw [h]
  decide

/-! ## C8 — the configuration is rewritten once, at the very end -/

theorem applyCfg_no_write : ∀ (effs : List Eff) (orig : String),
    (∀ e ∈ effs, isCfgWrite e = false) → applyCfg orig effs = orig := by
  intro effs
  induction effs with
  | nil => intro orig _; rfl
  | cons e rest ih =>
    intro orig h
    cases e with
    | cfgWrite s =>
      have := h _ (List.mem_cons_self _ _)
      simp [isCfgWrite] at this
    | outTrunc s =>
      exact ih orig fun x hx => h x (List.mem_cons_of_mem _ hx)
    | out s =>
      exact ih orig fun x hx => h x (List.mem_cons_of_mem _ hx)

/-- C8: `run` performs exactly one configuration write, as the very last
file effect, and only when every section has executed without error; every
proper prefix of the effect trace (an interruption point) leaves the
configuration byte-identical to its pre-run state, and an aborted run never
writes the configuration at all. -/
theorem C8_rewrite_at_end (nc : Char → Char) (walk : List WalkEv) (verbose : Bool)
    (cfgText rootStr cfgStr nowStr doneStr : String) :
    ((runTrace nc walk verbose cfgText rootStr cfgStr nowStr doneStr).2 = true →
      ∃ pre, (runTrace nc walk verbose cfgText rootStr cfgStr nowStr doneStr).1 =
          pre ++ [Eff.cfgWrite (update_config_file
            (runSectionsLoop nc walk verbose (parse_config cfgText) fun _ => none).2.1
            cfgText)] ∧
        ∀ e ∈ pre, isCfgWrite e = false) ∧
    ((runTrace nc walk verbose cfgText rootStr cfgStr nowStr doneStr).2 = false →
      ∀ e ∈ (runTrace nc walk verbose cfgText rootStr cfgStr nowStr doneStr).1,
        isCfgWrite e = false) ∧
    (∀ k < (runTrace nc walk verbose cfgText rootStr cfgStr nowStr doneStr).1.length,
      applyCfg cfgText
        ((runTrace nc walk verbose cfgText rootStr cfgStr nowStr doneStr).1.take k) =
        cfgText) := by
  have hprem : ∀ e ∈ Eff.outTrunc (headerText rootStr cfgStr nowStr) ::
      ((runSectionsLoop nc walk verbose (parse_config cfgText) fun _ => none).1.map Eff.out ++
       [Eff.out ("\n" ++ String.mk (List.replicate 40 '=')),
        Eff.out ("Completed: " ++ doneStr)]),
      isCfgWrite e = false := by
    intro e he
    rcases List.mem_cons.mp he with rfl | he
    · rfl
    rcases List.mem_append.mp he with he | he
    · rcases List.mem_map.mp he with ⟨s, _, rfl⟩
      rfl
    · simp only [List.mem_cons, List.mem_singleton, List.not_mem_nil, or_false] at he
      rcases he with rfl | rfl <;> rfl
  cases hok : (runSectionsLoop nc walk verbose (parse_config cfgText) fun _ => none).2.2 with
  | true =>
    have hrt : runTrace nc walk verbose cfgText rootStr cfgStr nowStr doneStr =
        ((Eff.outTrunc (headerText rootStr cfgStr nowStr) ::
          ((runSectionsLoop nc walk verbose (parse_config cfgText) fun _ => none).1.map Eff.out ++
           [Eff.out ("\n" ++ String.mk (List.replicate 40 '=')),
            Eff.out ("Completed: " ++ doneStr)])) ++
          [Eff.cfgWrite (update_config_file
            (runSectionsLoop nc walk verbose (parse_config cfgText) fun _ => none).2.1
            cfgText)],
         true) := by
      simp only [runTrace, hok, if_true]
      simp
    refine ⟨fun _ => ⟨_, by rw [hrt], hprem⟩, ?_, ?_⟩
    · intro hfalse
      rw [hrt] at hfalse
      cases hfalse
    · intro k hk
      rw [hrt] at hk ⊢
      have hle : k ≤ (Eff.outTrunc (headerText rootStr cfgStr nowStr) ::
          ((runSectionsLoop nc walk verbose (parse_config cfgText) fun _ => none).1.map Eff.out ++
           [Eff.out ("\n" ++ String.mk (List.replicate 40 '=')),
            Eff.out ("Completed: " ++ doneStr)])).length := by
        simp only [List.length_append, List.length_cons, List.length_map,
          List.length_singleton, List.length_nil] at hk ⊢
        omega
      rw [List.take_append_of_le_length hle]
      exact applyCfg_no_write _ _ fun e he => hprem e (List.take_subset _ _ he)
  | false =>
    have hrt : runTrace nc walk verbose cfgText rootStr cfgStr nowStr doneStr =
        (Eff.outTrunc (headerText rootStr cfgStr nowStr) ::
          (runSectionsLoop nc walk verbose (parse_config cfgText) fun _ => none).1.map Eff.out,
         false) := by
      simp only [runTrace, hok]
      simp
    have hall : ∀ e ∈ (runTrace nc walk verbose cfgText rootStr cfgStr nowStr doneStr).1,
        isCfgWrite e = false := by
      intro e he
      rw [hrt] at he
      rcases List.mem_cons.mp he with rfl | he
      · rfl
      · rcases List.mem_map.mp he with ⟨s, _, rfl⟩
        rfl
    refine ⟨?_, fun _ => hall, ?_⟩
    · intro htrue
      rw [hrt] at htrue
      cases htrue
    · intro k hk
      exact applyCfg_no_write _ _ fun e he => hall e (List.take_subset _ _ he)

/-- C8 (witness): at a concrete run, truncating the trace one effect before
its end leaves the configuration text unchanged. -/
theorem C8_witness :
    applyCfg "[A]\nCommand: find FILES\nFiles: x\n"
      ((runTrace posixNormcase [] false "[A]\nCommand: find FILES\nFiles: x\n"
        "/r" "cfg" "t0" "t1").1.take 3) = "[A]\nCommand: find FILES\nFiles: x\n" := by
  have h := C8_rewrite_at_end posixNormcase [] false "[A]\nCommand: find FILES\nFiles: x\n"
    "/r" "cfg" "t0" "t1"
  exact h.2.2 3 (by decide)

/-! ## C9 — per-file errors skip the file, traversal errors keep partial results -/

theorem grep_files_skip_unreadable (nc : Char → Char) (pat : String)
    (exts : List String) (pre post : List WalkEv) (e : FileEntry)
    (h : e.content = none) :
    grep_files nc (pre ++ WalkEv.file e :: post) pat exts =
      grep_files nc (pre ++ post) pat exts := by
  induction pre with
  | nil => simp [grep_files, h]
  | cons ev rest ih =>
    cases ev with
    | abort => rfl
    | file f => simp only [List.cons_append, grep_files, List.append_eq, ih]

theorem grep_files_abort (nc : Char → Char) (pat : String) (exts : List String)
    (pre post : List WalkEv) :
    grep_files nc (pre ++ WalkEv.abort :: post) pat exts =
      grep_files nc pre pat exts := by
  induction pre with
  | nil => rfl
  | cons ev rest ih =>
    cases ev with
    | abort => rfl
    | file f => simp only [List.cons_append, grep_files, List.append_eq, ih]

theorem find_files_abort (nc : Char → Char) (pats nps : List String)
    (pre post : List WalkEv) :
    find_files nc (pre ++ WalkEv.abort :: post) pats nps =
      find_files nc pre pats nps := by
  induction pre with
  | nil => rfl
  | cons ev rest ih =>
    cases ev with
    | abort => rfl
    | file f => simp only [List.cons_append, find_files, List.append_eq, ih]

theorem allFiles_append (l₁ l₂ : List WalkEv) :
    allFiles (l₁ ++ l₂) = allFiles l₁ ++ allFiles l₂ := by
  induction l₁ with
  | nil => rfl
  | cons ev rest ih =>
    cases ev with
    | abort => simp only [List.cons_append, allFiles, List.append_eq, ih]
    | file f => simp only [List.cons_append, allFiles, List.append_eq, ih]

theorem cat_found_append (store : List FileEntry) (a b : List String) :
    cat_found store (a ++ b) = cat_found store a ++ cat_found store b := by
  induction a with
  | nil => rfl
  | cons p ps ih => simp only [List.cons_append, cat_found, List.append_eq, ih, List.append_assoc]

theorem find_and_cat_abort (nc : Char → Char) (nps : List String)
    (pre post : List WalkEv) :
    find_and_cat_files nc (pre ++ WalkEv.abort :: post) nps =
      cat_found (allFiles (pre ++ post)) (find_files nc pre [] nps) := by
  unfold find_and_cat_files
  rw [find_files_abort, allFiles_append, allFiles_append]
  rfl

theorem readPath_middle_ne (fs₁ fs₂ : List FileEntry) (e : FileEntry) (p : String)
    (hp : p ≠ pathOf e) :
    readPath (fs₁ ++ e :: fs₂) p = readPath (fs₁ ++ fs₂) p := by
  have hcons : List.find? (fun x => pathOf x = p) (e :: fs₂) =
      List.find? (fun x => pathOf x = p) fs₂ := by
    rw [List.find?_cons_of_neg _ (by
      simp only [decide_eq_true_eq]
      exact fun hq => hp hq.symm)]
  unfold readPath
  rw [List.find?_append, List.find?_append, hcons]

theorem cat_found_middle_unreadable (fs₁ fs₂ : List FileEntry) (e : FileEntry) :
    ∀ L : List String, pathOf e ∉ L →
      cat_found (fs₁ ++ e :: fs₂) L = cat_found (fs₁ ++ fs₂) L := by
  intro L
  induction L with
  | nil => intro _; rfl
  | cons p ps ih =>
    intro hnp
    simp only [cat_found]
    rw [readPath_middle_ne fs₁ fs₂ e p fun hq => hnp (hq ▸ List.mem_cons_self p ps),
      ih fun hq => hnp (List.mem_cons_of_mem _ hq)]

theorem find_and_cat_skip_unreadable (nc : Char → Char) (nps : List String)
    (fs₁ fs₂ : List FileEntry) (e : FileEntry) (hc : e.content = none)
    (hp : pathOf e ∉ (fs₁ ++ fs₂).map pathOf) :
    find_and_cat_files nc (pureWalk (fs₁ ++ e :: fs₂)) nps =
      find_and_cat_files nc (pureWalk (fs₁ ++ fs₂)) nps := by
  have hp₁ : pathOf e ∉ fs₁.map pathOf := fun h => hp (by rw [List.map_append]; exact List.mem_append_left _ h)
  have hp₂ : pathOf e ∉ fs₂.map pathOf := fun h => hp (by rw [List.map_append]; exact List.mem_append_right _ h)
  have hmix : ∀ l : List FileEntry, (∀ x ∈ l, x ∈ fs₁ ∨ x ∈ fs₂) →
      pathOf e ∉ (l.map pathOf) := by
    intro l hl hmem
    rcases List.mem_map.mp hmem with ⟨x, hx, hpx⟩
    rcases hl x hx with hx1 | hx2
    · exact hp₁ (hpx ▸ List.mem_map_of_mem pathOf hx1)
    · exact hp₂ (hpx ▸ List.mem_map_of_mem pathOf hx2)
  unfold find_and_cat_files
  rw [allFiles_pure, allFiles_pure, find_files_name_patterns, find_files_name_patterns,
    List.filter_append, List.filter_append, List.filter_cons]
  cases hm : (nps.any fun pat => fnmatch nc e.fname pat) with
  | false =>
    simp only [Bool.false_eq_true, if_false]
    exact cat_found_middle_unreadable fs₁ fs₂ e _
      (hmix _ fun x hx => by
        rcases List.mem_append.mp hx with hx | hx
        · exact Or.inl (List.mem_of_mem_filter hx)
        · exact Or.inr (List.mem_of_mem_filter hx))
  | true =>
    simp only [if_true]
    rw [List.map_append, List.map_append, List.map_cons, cat_found_append,
      cat_found_append]
    have hcontrib : cat_found (fs₁ ++ e :: fs₂)
        (pathOf e :: (fs₂.filter fun x => nps.any fun pat => fnmatch nc x.fname pat).map pathOf) =
        cat_found (fs₁ ++ e :: fs₂)
          ((fs₂.filter fun x => nps.any fun pat => fnmatch nc x.fname pat).map pathOf) := by
      have hre : readPath (fs₁ ++ e :: fs₂) (pathOf e) = some e.content := by
        unfold readPath
        rw [List.find?_append]
        have hnone : fs₁.find? (fun x => pathOf x = pathOf e) = none := by
          rw [List.find?_eq_none]
          intro x hx
          simp only [decide_eq_true_eq]
          intro hpx
          exact hp₁ (hpx ▸ List.mem_map_of_mem pathOf hx)
        rw [hnone]
        simp [List.find?_cons_of_pos]
      simp only [cat_found, hre, hc]
      rfl
    rw [hcontrib]
    rw [cat_found_middle_unreadable fs₁ fs₂ e _
        (hmix _ fun x hx => Or.inl (List.mem_of_mem_filter hx)),
      cat_found_middle_unreadable fs₁ fs₂ e _
        (hmix _ fun x hx => Or.inr (List.mem_of_mem_filter hx))]

/-- C9: a per-file `PermissionError`/`OSError` (an unreadable file) only
skips that file — content search and dump mode produce exactly the results
of the same walk without it — while an error raised by the traversal itself
ends the walk but the search still returns the results collected up to that
point instead of failing: `grep_files` returns the matches of the prefix,
and dump mode dumps the files found in the prefix. -/
theorem C9_error_handling :
    (∀ (nc : Char → Char) (pat : String) (exts : List String)
       (pre post : List WalkEv) (e : FileEntry), e.content = none →
       grep_files nc (pre ++ WalkEv.file e :: post) pat exts =
         grep_files nc (pre ++ post) pat exts) ∧
    (∀ (nc : Char → Char) (pat : String) (exts : List String)
       (pre post : List WalkEv),
       grep_files nc (pre ++ WalkEv.abort :: post) pat exts =
         grep_files nc pre pat exts) ∧
    (∀ (nc : Char → Char) (nps : List String) (pre post : List WalkEv),
       find_and_cat_files nc (pre ++ WalkEv.abort :: post) nps =
         cat_found (allFiles (pre ++ post)) (find_files nc pre [] nps)) ∧
    (∀ (nc : Char → Char) (nps : List String) (fs₁ fs₂ : List FileEntry)
       (e : FileEntry), e.content = none → pathOf e ∉ (fs₁ ++ fs₂).map pathOf →
       find_and_cat_files nc (pureWalk (fs₁ ++ e :: fs₂)) nps =
         find_and_cat_files nc (pureWalk (fs₁ ++ fs₂)) nps) :=
  ⟨fun nc pat exts pre post e h => grep_files_skip_unreadable nc pat exts pre post e h,
   fun nc pat exts pre post => grep_files_abort nc pat exts pre post,
   fun nc nps pre post => find_and_cat_abort nc nps pre post,
   fun nc nps fs₁ fs₂ e hc hp => find_and_cat_skip_unreadable nc nps fs₁ fs₂ e hc hp⟩

/-- C9 (witness): an unreadable file is skipped without affecting the other
file's matches, and a traversal abort still returns the prefix's matches. -/
theorem C9_witness :
    grep_files posixNormcase
      ([] ++ WalkEv.file ⟨"r", "a.txt", none⟩ :: [WalkEv.file ⟨"r", "b.txt", some "key\n"⟩])
      "key" [] =
      grep_files posixNormcase ([] ++ [WalkEv.file ⟨"r", "b.txt", some "key\n"⟩]) "key" [] ∧
    grep_files posixNormcase
      ([WalkEv.file ⟨"r", "b.txt", some "key\n"⟩] ++ WalkEv.abort :: []) "key" [] =
      ["r/b.txt:1:key"] := by
  constructor
  · exact C9_error_handling.1 posixNormcase "key" [] [] _ ⟨"r", "a.txt", none⟩ rfl
  · have h := C9_error_handling.2.1 posixNormcase "key" []
      [WalkEv.file ⟨"r", "b.txt", some "key\n"⟩] []
    rw [h]
    decide

/-! ## C10 — empty list elements and the empty regex alternative -/

theorem nil_mem_splitChar_joinSep (kws : List String) (h : "" ∈ kws) :
    [] ∈ splitChar '|' (joinSep "|" kws).data := by
  induction kws with
  | nil => cases h
  | cons k rest ih =>
    cases rest with
    | nil =>
      have hk : k = "" := by
        have := by simpa using h
        exact this.symm
      subst hk
      simp [joinSep, splitChar]
    | cons y ys =>
      have hdata : (k ++ "|" ++ joinSep "|" (y :: ys)).data =
          k.data ++ '|' :: (joinSep "|" (y :: ys)).data := by
        rw [data_append, data_append]
        simp
      rw [show joinSep "|" (k :: y :: ys) = k ++ "|" ++ joinSep "|" (y :: ys) from rfl,
        hdata, splitChar_append_cons]
      rcases List.mem_cons.mp h with hk | hmem
      · cases hk
        exact List.mem_append_left _ (by simp [splitChar])
      · exact List.mem_append_right _ (ih hmem)

/-- C10: `parse_list` keeps empty elements produced by consecutive (or
leading/trailing) commas, and once an empty keyword reaches the `'|'`-joined
alternation, the content-search regex matches every line — the empty
alternative matches everywhere. -/
theorem C10_empty_alternative :
    parse_list "secret,,token" = ["secret", "", "token"] ∧
    parse_list ",token" = ["", "token"] ∧
    parse_list "secret," = ["secret", ""] ∧
    ∀ (kws : List String) (line : String), "" ∈ kws →
      reSearchCI (joinSep "|" kws) line = true := by
  refine ⟨by decide, by decide, by decide, ?_⟩
  intro kws line h
  unfold reSearchCI
  apply List.any_eq_true.mpr
  refine ⟨[], nil_mem_splitChar_joinSep kws h, ?_⟩
  simp [listInfix_nil_left]

/-- C10 (witness): with `keywords = ["secret", ""]` the joined pattern
matches a line containing neither keyword text. -/
theorem C10_witness :
    reSearchCI (joinSep "|" ["secret", ""]) "unrelated line" = true :=
  C10_empty_alternative.2.2.2 ["secret", ""] "unrelated line" (by simp)

end FileScanner
